import Mathlib

/-!
Shallow embedding of the ThaleC lexer (src/source/lex.c, src/source/error.c,
src/source/include/lex.h) over `List Char` source buffers.

The C scanner works on a NUL-terminated byte buffer through a cursor pointer.
Here a buffer is a `List Char`; reading at or past the end of the list yields
the terminator `nul`, exactly as reading the C terminator does.  The scanner
state `Lex` keeps the cursor as an index from the start of the buffer together
with the 1-based line/column counters, mirroring `struct Lex` (the fixed
`start` pointer of the C struct is the index 0 of the buffer, which is passed
around explicitly).  Loops of the C code that walk the buffer forward are
translated into structural recursion over the remaining suffix of the buffer
(`rem`), which callers always instantiate with `buf.drop lex.current`, so that
reading `*lex->current` is reading the head of `rem`.  `reportError` terminates
the process in C; it is modelled as producing a `Diag` value describing the
rendered diagnostic, and functions that may call it return `Except Diag`.
-/

namespace Thale

/-- The NUL terminator byte. -/
def nul : Char := Char.ofNat 0

/-- Read the first byte of the remaining input; reading past the end of the
buffer yields the NUL terminator, as in C. -/
def headCh : List Char → Char
  | [] => nul
  | c :: _ => c

/-- Read the byte at index `i` of the buffer (`buf[i]`), with the NUL
terminator past the end. -/
def getCh (buf : List Char) (i : Nat) : Char := buf.getD i nul

/-- C `isspace` in the default locale (space, \t, \n, \v, \f, \r). -/
def isSpaceC (c : Char) : Bool :=
  c = ' ' || c = '\t' || c = '\n' || c = '\r' || c = Char.ofNat 11 || c = Char.ofNat 12

/-- C `isdigit`. -/
def isDigitC (c : Char) : Bool := '0' ≤ c && c ≤ '9'

/-- C `isalpha` in the default locale (ASCII letters). -/
def isAlphaC (c : Char) : Bool := ('A' ≤ c && c ≤ 'Z') || ('a' ≤ c && c ≤ 'z')

/-- C `isalnum`. -/
def isAlnumC (c : Char) : Bool := isAlphaC c || isDigitC c

/-- The identifier-continuation test of `parseIdentifier`:
`isalnum(*lex->current) || *lex->current == '_'`. -/
def isIdentCont (c : Char) : Bool := isAlnumC c || c = '_'

/-- Token kinds, from `enum TokenType` in include/lex.h.  The C enumerator
`Type` is spelled `TypeKw` here because `Type` is a Lean keyword. -/
inductive TokenType where
  | LParen | RParen | LBrace | RBrace | LBracket | RBracket
  | Dot | Colon | Semicolon | Comma | Percent | Carot
  | Plus | Minus | Star | Slash | NotEqual | Assign
  | Ampersand | LogicalAnd | Pipe | LogicalOr | Greater | Less
  | ConsOP | Arrow | Identifier | IntLiteral | FloatLiteral
  | StringLiteral | CharLiteral | Char | String | False | Float
  | Int | Let | List | Match | True | TypeKw | Unit | With | Effect
  | Unknown | Eof
  deriving DecidableEq, Repr

/-- Scanner state, from `struct Lex`: cursor index into the buffer plus the
running 1-based line and column counters. -/
structure Lex where
  current : Nat
  line : Nat
  column : Nat
  deriving DecidableEq, Repr

/-- A token, from `struct Token`.  `start` is the offset of the token's
claimed first byte from the beginning of the buffer, kept as an `Int` because
the C code can produce a pointer one byte before the buffer (see
`parseChar`). `length` is `lex.current - start` as in `makeToken`. -/
structure Token where
  typ : TokenType
  start : Int
  length : Int
  line : Nat
  column : Nat
  deriving DecidableEq, Repr

/-- `makeToken` from lex.c: the span runs from `start` to the current cursor,
and the position fields record the lexer's current line/column counters. -/
def makeToken (typ : TokenType) (start : Int) (lex : Lex) : Token :=
  { typ := typ, start := start, length := (lex.current : Int) - start,
    line := lex.line, column := lex.column }

/-- Error categories, from `enum ErrorType` in error.h. -/
inductive ErrorType where
  | LexicalError | SyntaxError | SemanticError
  deriving DecidableEq, Repr

/-- `errorTypeToString` from error.c. -/
def errorTypeToString : ErrorType → String
  | .LexicalError => "LexicalError"
  | .SyntaxError => "SyntaxError"
  | .SemanticError => "SemanticError"

/-- The backward scan of `reportError`: starting at index `i`, move left while
not at the start of the buffer and the previous byte is not a newline.  The
result is the index of the first byte of the line containing index `i`. -/
def lineStart (buf : List Char) : Nat → Nat
  | 0 => 0
  | i + 1 => if getCh buf i = '\n' then i + 1 else lineStart buf i

/-- The diagnostic rendered by `reportError` on stderr: category name, the
token's line, the column recomputed from the token's start pointer, and the
message.  (The C function additionally prints the text of the source line with
a caret under `column`, and then exits; the exit is modelled by returning the
diagnostic through `Except.error`.) -/
structure Diag where
  category : String
  line : Nat
  column : Int
  message : String
  deriving DecidableEq, Repr

/-- `reportError` from error.c: the printed column is the 1-based offset of
the token's start within its source line, found by scanning back from the
token's start to the previous newline or the start of the buffer. -/
def reportError (buf : List Char) (typ : ErrorType) (message : String) (tok : Token) : Diag :=
  { category := errorTypeToString typ, line := tok.line,
    column := tok.start - (lineStart buf tok.start.toNat : Int) + 1, message := message }

/-- Keyword table `kw` from lex.c. -/
def kwList : List (List Char × TokenType) :=
  [(['C', 'h', 'a', 'r'], .Char), (['F', 'a', 'l', 's', 'e'], .False),
   (['F', 'l', 'o', 'a', 't'], .Float), (['I', 'n', 't'], .Int),
   (['l', 'e', 't'], .Let), (['L', 'i', 's', 't'], .List),
   (['m', 'a', 't', 'c', 'h'], .Match), (['T', 'r', 'u', 'e'], .True),
   (['t', 'y', 'p', 'e'], .TypeKw), (['U', 'n', 'i', 't'], .Unit),
   (['w', 'i', 't', 'h'], .With), (['S', 't', 'r', 'i', 'n', 'g'], .String),
   (['e', 'f', 'f', 'e', 'c', 't'], .Effect)]

/-- The linear search of `checkKeyword` over the keyword table. -/
def checkKeywordGo (s : List Char) : List (List Char × TokenType) → TokenType
  | [] => .Identifier
  | (k, t) :: rest => if k = s then t else checkKeywordGo s rest

/-- `checkKeyword` from lex.c: exact, case-sensitive whole-lexeme match
against the keyword table, defaulting to `Identifier`. -/
def checkKeyword (s : List Char) : TokenType := checkKeywordGo s kwList

/-- `initLex` from lex.c: cursor at the start of the buffer, line 1, column 1. -/
def initLex : Lex := { current := 0, line := 1, column := 1 }

/-- Advance over one whitespace character in `skipWhiteSpace`: a newline bumps
the line counter and resets the column to 1, anything else bumps the column. -/
def spaceAdv (c : Char) (lex : Lex) : Lex :=
  if c = '\n' then { current := lex.current + 1, line := lex.line + 1, column := 1 }
  else { current := lex.current + 1, line := lex.line, column := lex.column + 1 }

/-- The inner comment loop of `skipWhiteSpace`:
`while (*lex.current && *lex.current != '\n') { lex.current++; lex.column++; }`.
Returns the remaining suffix together with the updated state. -/
def skipEol : List Char → Lex → List Char × Lex
  | [], lex => ([], lex)
  | c :: rest, lex =>
    if c = nul ∨ c = '\n' then (c :: rest, lex)
    else skipEol rest { current := lex.current + 1, line := lex.line, column := lex.column + 1 }

/-- The outer loop of `skipWhiteSpace`, one character of whitespace or one
line comment per recursive step.  The `fuel` argument is only a structural
bound making the recursion well-founded; `skipWhiteSpace` supplies
`rem.length + 1`, which is never exhausted (each step consumes at least one
character of `rem`). -/
def skipWhiteSpaceAux : Nat → List Char → Lex → List Char × Lex
  | 0, rem, lex => (rem, lex)
  | fuel + 1, rem, lex =>
    match rem with
    | [] => ([], lex)
    | c :: rest =>
      if isSpaceC c then skipWhiteSpaceAux fuel rest (spaceAdv c lex)
      else if c = '-' ∧ headCh rest = '-' then
        skipWhiteSpaceAux fuel
          (skipEol rest.tail
            { current := lex.current + 2, line := lex.line, column := lex.column + 2 }).1
          (skipEol rest.tail
            { current := lex.current + 2, line := lex.line, column := lex.column + 2 }).2
      else (c :: rest, lex)

/-- `skipWhiteSpace` from lex.c: skip runs of whitespace and `--` line
comments before every token. -/
def skipWhiteSpace (rem : List Char) (lex : Lex) : List Char × Lex :=
  skipWhiteSpaceAux (rem.length + 1) rem lex

/-- One iteration of the `for (;;)` loop of `skipWhiteSpace`: `some` with the
advanced state if the iteration consumed whitespace or a comment, `none` if
the loop breaks (neither whitespace nor a comment marker at the cursor). -/
def skipStep : List Char → Lex → Option (List Char × Lex)
  | [], _ => none
  | c :: rest, lex =>
    if isSpaceC c then some (rest, spaceAdv c lex)
    else if c = '-' ∧ headCh rest = '-' then
      some (skipEol rest.tail
        { current := lex.current + 2, line := lex.line, column := lex.column + 2 })
    else none

/-- The scan loop of `parseIdentifier`: the number of leading
identifier-continuation characters of the remaining input. -/
def identSteps : List Char → Nat
  | [] => 0
  | c :: rest => if isIdentCont c then identSteps rest + 1 else 0

/-- The digit-run loops of `parseNumber`: the number of leading digits of the
remaining input. -/
def digitSteps : List Char → Nat
  | [] => 0
  | c :: rest => if isDigitC c then digitSteps rest + 1 else 0

/-- `parseIdentifier` from lex.c.  On entry the dispatcher has consumed the
first character, so the lexeme starts at `lex.current - 1` and `rem` is the
input after that first character. -/
def parseIdentifier (buf : List Char) (rem : List Char) (lex : Lex) : Token × Lex :=
  let start := lex.current - 1
  let n := identSteps rem
  let lex2 : Lex := { current := lex.current + n, line := lex.line, column := lex.column + n }
  (makeToken (checkKeyword ((buf.drop start).take (lex.current + n - start))) (start : Int) lex2,
   lex2)

/-- `parseNumber` from lex.c: a maximal digit run, then, if a `.` follows, the
dot and a further maximal digit run classify the lexeme as `FloatLiteral`
(even when no digit follows the dot); otherwise it is an `IntLiteral`. -/
def parseNumber (rem : List Char) (lex : Lex) : Token × Lex :=
  let start := lex.current - 1
  let n1 := digitSteps rem
  if headCh (rem.drop n1) = '.' then
    let n2 := digitSteps ((rem.drop n1).tail)
    let lexC : Lex := { current := lex.current + n1 + 1 + n2, line := lex.line,
                        column := lex.column + n1 + 1 + n2 }
    (makeToken .FloatLiteral (start : Int) lexC, lexC)
  else
    let lexA : Lex := { current := lex.current + n1, line := lex.line,
                        column := lex.column + n1 }
    (makeToken .IntLiteral (start : Int) lexA, lexA)

/-- The `reportError` call for an unterminated string literal: the offending
token spans from the opening quote (`start`) to the current cursor. -/
def mkUnterminatedString (buf : List Char) (start : Nat) (lex : Lex) : Diag :=
  reportError buf .LexicalError "Unterminated string literal"
    (makeToken .Unknown (start : Int) lex)

/-- The scan loop of `parseString`, entered just after the opening quote
(whose index is `start`).  Walks the remaining input until an unescaped quote
(success), a raw newline, the NUL terminator (both unterminated-literal
errors), or an invalid escape sequence (error at the backslash). -/
def stringLoop (buf : List Char) (start : Nat) : List Char → Lex → Except Diag (Token × Lex)
  | [], lex => .error (mkUnterminatedString buf start lex)
  | [c], lex =>
    if c = nul then .error (mkUnterminatedString buf start lex)
    else if c = '"' then
      .ok (makeToken .StringLiteral (start : Int)
             { current := lex.current + 1, line := lex.line, column := lex.column + 1 },
           { current := lex.current + 1, line := lex.line, column := lex.column + 1 })
    else if c = '\\' then
      -- backslash just before the terminator: the escape scan consumes the
      -- backslash, sees NUL, and the loop then exits into the unterminated case
      .error (mkUnterminatedString buf start
        { current := lex.current + 1, line := lex.line, column := lex.column + 1 })
    else if c = '\n' then .error (mkUnterminatedString buf start lex)
    else stringLoop buf start []
      { current := lex.current + 1, line := lex.line, column := lex.column + 1 }
  | c :: e :: rest2, lex =>
    if c = nul then .error (mkUnterminatedString buf start lex)
    else if c = '"' then
      .ok (makeToken .StringLiteral (start : Int)
             { current := lex.current + 1, line := lex.line, column := lex.column + 1 },
           { current := lex.current + 1, line := lex.line, column := lex.column + 1 })
    else if c = '\\' then
      if e = 'n' ∨ e = 't' ∨ e = 'r' ∨ e = '\\' ∨ e = '"' then
        stringLoop buf start rest2
          { current := lex.current + 2, line := lex.line, column := lex.column + 2 }
      else if e = nul then
        .error (mkUnterminatedString buf start
          { current := lex.current + 1, line := lex.line, column := lex.column + 1 })
      else
        .error (reportError buf .LexicalError "Invalid escape sequence in string"
          { typ := .Unknown, start := (lex.current : Int), length := 1, line := lex.line,
            column := lex.column })
    else if c = '\n' then .error (mkUnterminatedString buf start lex)
    else stringLoop buf start (e :: rest2)
      { current := lex.current + 1, line := lex.line, column := lex.column + 1 }

/-- `parseString` from lex.c: entered with the cursor just after the opening
quote, which therefore sits at index `lex.current - 1`. -/
def parseString (buf : List Char) (rem : List Char) (lex : Lex) : Except Diag (Token × Lex) :=
  stringLoop buf (lex.current - 1) rem lex

/-- The tail of `parseChar` after optional escape processing: consume one
character if not at the terminator, then require a closing quote.  On success
the token is built from `start - 1`, one byte BEFORE the opening quote, as the
C code does (`makeToken(CharLiteral, start - 1, *lex)`).  When the cursor is
on the terminator nothing is consumed and the closing-quote test necessarily
fails (`nul ≠ '\''`), giving the unterminated error at the current cursor. -/
def charClose (buf : List Char) (start : Nat) (rem : List Char) (lex : Lex) :
    Except Diag (Token × Lex) :=
  if headCh rem = nul then
    .error (reportError buf .LexicalError "Unterminated char literal"
      (makeToken .Unknown (start : Int) lex))
  else if headCh rem.tail = '\'' then
    .ok (makeToken .CharLiteral ((start : Int) - 1)
           { current := lex.current + 2, line := lex.line, column := lex.column + 2 },
         { current := lex.current + 2, line := lex.line, column := lex.column + 2 })
  else
    .error (reportError buf .LexicalError "Unterminated char literal"
      (makeToken .Unknown (start : Int)
        { current := lex.current + 1, line := lex.line, column := lex.column + 1 }))

/-- `parseChar` from lex.c: entered with the cursor just after the opening
quote (index `lex.current - 1`).  A backslash consumes the following
character; an invalid non-NUL escape character is a fatal error reported at
the backslash. -/
def parseChar (buf : List Char) (rem : List Char) (lex : Lex) : Except Diag (Token × Lex) :=
  if headCh rem = '\\' then
    if headCh rem.tail = 'n' ∨ headCh rem.tail = 't' ∨ headCh rem.tail = 'r' ∨
        headCh rem.tail = '\\' ∨ headCh rem.tail = '\'' then
      charClose buf (lex.current - 1) rem.tail
        { current := lex.current + 1, line := lex.line, column := lex.column + 1 }
    else if headCh rem.tail = nul then
      charClose buf (lex.current - 1) rem.tail
        { current := lex.current + 1, line := lex.line, column := lex.column + 1 }
    else
      .error (reportError buf .LexicalError "Invalid escape sequence in char literal"
        { typ := .Unknown, start := (lex.current : Int), length := 1, line := lex.line,
          column := lex.column })
  else charClose buf (lex.current - 1) rem lex

/-- A single-character symbol case of `parseSymbol`: the token spans the one
already-consumed character starting at `start = lex.current - 1`. -/
def symOne (lex : Lex) (start : Nat) (t : TokenType) : Except Diag (Token × Lex) :=
  .ok (makeToken t (start : Int) lex, lex)

/-- A lookahead case of `parseSymbol`: when the next character equals
`second`, consume it and produce the two-character kind `tTwo`, otherwise
produce the single-character kind `tOne`. -/
def symTwo (rem : List Char) (lex : Lex) (start : Nat) (second : Char)
    (tTwo tOne : TokenType) : Except Diag (Token × Lex) :=
  if headCh rem = second then
    .ok (makeToken tTwo (start : Int)
           { current := lex.current + 1, line := lex.line, column := lex.column + 1 },
         { current := lex.current + 1, line := lex.line, column := lex.column + 1 })
  else symOne lex start tOne

/-- `parseSymbol` from lex.c: the `switch` over the already-consumed
character `c` (which sits at index `lex.current - 1`): single-character
symbols, the five two-character operators recognized by one-character
lookahead, and the fatal "Unknown symbol" error for anything else. -/
def parseSymbol (buf : List Char) (rem : List Char) (lex : Lex) (c : Char) :
    Except Diag (Token × Lex) :=
  match c with
  | '(' => symOne lex (lex.current - 1) .LParen
  | ')' => symOne lex (lex.current - 1) .RParen
  | '{' => symOne lex (lex.current - 1) .LBrace
  | '}' => symOne lex (lex.current - 1) .RBrace
  | '[' => symOne lex (lex.current - 1) .LBracket
  | ']' => symOne lex (lex.current - 1) .RBracket
  | '.' => symOne lex (lex.current - 1) .Dot
  | ';' => symOne lex (lex.current - 1) .Semicolon
  | ',' => symOne lex (lex.current - 1) .Comma
  | '%' => symOne lex (lex.current - 1) .Percent
  | '^' => symOne lex (lex.current - 1) .Carot
  | '+' => symOne lex (lex.current - 1) .Plus
  | '*' => symOne lex (lex.current - 1) .Star
  | '/' => symOne lex (lex.current - 1) .Slash
  | '=' => symOne lex (lex.current - 1) .Assign
  | '>' => symOne lex (lex.current - 1) .Greater
  | '<' => symTwo rem lex (lex.current - 1) '>' .NotEqual .Less
  | ':' => symTwo rem lex (lex.current - 1) ':' .ConsOP .Colon
  | '-' => symTwo rem lex (lex.current - 1) '>' .Arrow .Minus
  | '&' => symTwo rem lex (lex.current - 1) '&' .LogicalAnd .Ampersand
  | '|' => symTwo rem lex (lex.current - 1) '|' .LogicalOr .Pipe
  | _ => .error (reportError buf .LexicalError "Unknown symbol"
      (makeToken .Unknown ((lex.current - 1 : Nat) : Int) lex))

/-- `getNextToken` from lex.c: skip whitespace and comments, return the Eof
token (zero length, at the current position, state unchanged) at the
terminator, otherwise consume one character and dispatch on its class. -/
def getNextToken (buf : List Char) (lex0 : Lex) : Except Diag (Token × Lex) :=
  match skipWhiteSpace (buf.drop lex0.current) lex0 with
  | ([], lex) => .ok (makeToken .Eof (lex.current : Int) lex, lex)
  | (c :: rest, lex) =>
    if c = nul then .ok (makeToken .Eof (lex.current : Int) lex, lex)
    else if isAlphaC c ∨ c = '_' then
      .ok (parseIdentifier buf rest
        { current := lex.current + 1, line := lex.line, column := lex.column + 1 })
    else if isDigitC c then
      .ok (parseNumber rest
        { current := lex.current + 1, line := lex.line, column := lex.column + 1 })
    else if c = '"' then
      parseString buf rest
        { current := lex.current + 1, line := lex.line, column := lex.column + 1 }
    else if c = '\'' then
      parseChar buf rest
        { current := lex.current + 1, line := lex.line, column := lex.column + 1 }
    else
      parseSymbol buf rest
        { current := lex.current + 1, line := lex.line, column := lex.column + 1 } c

/-- What is true of every token the scanner actually returns (as opposed to
dying in `reportError`): its `line`/`column` fields are the scanner's position
after the token's last consumed character, and its kind is never `Unknown`. -/
def okPos : Except Diag (Token × Lex) → Prop
  | .ok p => p.1.line = p.2.line ∧ p.1.column = p.2.column ∧ p.1.typ ≠ .Unknown
  | .error _ => True

/-- Encodes the premise of claim C3, following the spec's words: scanning the
string-literal content `rem` (the input just after the opening quote), no
unescaped closing quote occurs before a raw newline or end-of-input.  Per the
spec, a backslash escapes (consumes) the following character unconditionally,
so a newline right after a backslash is escaped, not raw. -/
def noCloseBeforeNl : List Char → Bool
  | [] => true
  | [c] =>
    if c = nul then true
    else if c = '"' then false
    else true
  | c :: e :: rest2 =>
    if c = nul then true
    else if c = '"' then false
    else if c = '\\' then noCloseBeforeNl rest2
    else if c = '\n' then true
    else noCloseBeforeNl (e :: rest2)

/-- The premise of the amended claim C3: as `noCloseBeforeNl`, but
additionally every escape sequence occurring before the terminator is valid
(otherwise the scanner dies earlier with the invalid-escape error).  The case
split mirrors `stringLoop` so the two walk the literal identically. -/
def untermOkStr : List Char → Bool
  | [] => true
  | [c] =>
    if c = nul then true
    else if c = '"' then false
    else if c = '\\' then true
    else if c = '\n' then true
    else untermOkStr []
  | c :: e :: rest2 =>
    if c = nul then true
    else if c = '"' then false
    else if c = '\\' then
      if e = 'n' ∨ e = 't' ∨ e = 'r' ∨ e = '\\' ∨ e = '"' then untermOkStr rest2
      else if e = nul then true
      else false
    else if c = '\n' then true
    else untermOkStr (e :: rest2)

/-- One logical character of a char literal, for stating claim C4: either a
raw character or an escape sequence `\c`. -/
inductive CItem where
  | raw (c : Char)
  | esc (c : Char)

/-- The source bytes of one logical character. -/
def citemChars : CItem → List Char
  | .raw c => [c]
  | .esc c => ['\\', c]

/-- A well-formed logical character of a char literal: a raw character is not
a quote (it would close the literal), not a backslash (it would start an
escape) and not the terminator; an escaped character is one of the valid
escape set of `parseChar`. -/
def citemOk : CItem → Prop
  | .raw c => c ≠ '\'' ∧ c ≠ '\\' ∧ c ≠ nul
  | .esc c => c = 'n' ∨ c = 't' ∨ c = 'r' ∨ c = '\\' ∨ c = '\''

/-! ## Character-class facts -/

theorem isSpaceC_cases {c : Char} (h : isSpaceC c = true) :
    c = ' ' ∨ c = '\t' ∨ c = '\n' ∨ c = '\r' ∨ c = Char.ofNat 11 ∨ c = Char.ofNat 12 := by
  have h2 := h
  simp only [isSpaceC, Bool.or_eq_true, decide_eq_true_eq] at h2
  tauto

theorem isSpaceC_false_of_isAlphaC {c : Char} (h : isAlphaC c = true) : isSpaceC c = false := by
  cases hs : isSpaceC c with
  | false => rfl
  | true =>
    rcases isSpaceC_cases hs with h2 | h2 | h2 | h2 | h2 | h2 <;>
      (rw [h2] at h; exact absurd h (by decide))

theorem isSpaceC_false_of_isDigitC {c : Char} (h : isDigitC c = true) : isSpaceC c = false := by
  cases hs : isSpaceC c with
  | false => rfl
  | true =>
    rcases isSpaceC_cases hs with h2 | h2 | h2 | h2 | h2 | h2 <;>
      (rw [h2] at h; exact absurd h (by decide))

theorem ne_dash_of_isAlphaC {c : Char} (h : isAlphaC c = true) : c ≠ '-' :=
  fun he => by rw [he] at h; exact absurd h (by decide)

theorem ne_dash_of_isDigitC {c : Char} (h : isDigitC c = true) : c ≠ '-' :=
  fun he => by rw [he] at h; exact absurd h (by decide)

theorem ne_nul_of_isAlphaC {c : Char} (h : isAlphaC c = true) : c ≠ nul :=
  fun he => by rw [he] at h; exact absurd h (by decide)

theorem ne_nul_of_isDigitC {c : Char} (h : isDigitC c = true) : c ≠ nul :=
  fun he => by rw [he] at h; exact absurd h (by decide)

theorem ne_underscore_of_isDigitC {c : Char} (h : isDigitC c = true) : c ≠ '_' :=
  fun he => by rw [he] at h; exact absurd h (by decide)

theorem isAlphaC_false_of_isDigitC {c : Char} (h : isDigitC c = true) : isAlphaC c = false := by
  simp only [isDigitC, Bool.and_eq_true, decide_eq_true_eq] at h
  cases ha : isAlphaC c with
  | false => rfl
  | true =>
    simp only [isAlphaC, Bool.or_eq_true, Bool.and_eq_true, decide_eq_true_eq] at ha
    rcases ha with ⟨h1, _⟩ | ⟨h1, _⟩
    · exact absurd (le_trans h1 h.2) (by decide)
    · exact absurd (le_trans h1 h.2) (by decide)

/-! ## Whitespace-skipping facts -/

theorem skipWhiteSpace_nil (lex : Lex) : skipWhiteSpace [] lex = ([], lex) := rfl

theorem skipWhiteSpace_no_skip {c : Char} (rest : List Char) (lex : Lex)
    (hs : isSpaceC c = false) (hd : c ≠ '-') :
    skipWhiteSpace (c :: rest) lex = (c :: rest, lex) := by
  simp [skipWhiteSpace, skipWhiteSpaceAux, hs, hd]

theorem skipWhiteSpace_eof {rem : List Char} (lex : Lex) (h : headCh rem = nul) :
    skipWhiteSpace rem lex = (rem, lex) := by
  cases rem with
  | nil => rfl
  | cons c rest =>
    have hc : c = nul := h
    subst hc
    exact skipWhiteSpace_no_skip rest lex (by decide) (by decide)

/-! ## Shape of successfully returned tokens -/

theorem checkKeywordGo_ne_unknown (s : List Char) :
    ∀ L : List (List Char × TokenType), (∀ p ∈ L, p.2 ≠ .Unknown) →
      checkKeywordGo s L ≠ .Unknown := by
  intro L
  induction L with
  | nil => intro _; simp [checkKeywordGo]
  | cons p rest ih =>
    intro hL
    simp only [checkKeywordGo]
    split
    · exact hL p (by simp)
    · exact ih fun q hq => hL q (by simp [hq])

theorem checkKeyword_ne_unknown (s : List Char) : checkKeyword s ≠ .Unknown :=
  checkKeywordGo_ne_unknown s kwList (by decide)

theorem parseNumber_okPos (rem : List Char) (lex : Lex) :
    okPos (.ok (parseNumber rem lex)) := by
  simp only [parseNumber]
  split
  · exact ⟨rfl, rfl, fun h => nomatch h⟩
  · exact ⟨rfl, rfl, fun h => nomatch h⟩

theorem charClose_okPos (buf : List Char) (st : Nat) (rem : List Char) (lex : Lex) :
    okPos (charClose buf st rem lex) := by
  unfold charClose
  split_ifs
  · trivial
  · exact ⟨rfl, rfl, fun h => nomatch h⟩
  · trivial

theorem parseChar_okPos (buf : List Char) (rem : List Char) (lex : Lex) :
    okPos (parseChar buf rem lex) := by
  unfold parseChar
  split_ifs
  · exact charClose_okPos ..
  · exact charClose_okPos ..
  · trivial
  · exact charClose_okPos ..

theorem symOne_okPos (lex : Lex) (start : Nat) (t : TokenType) (ht : t ≠ .Unknown) :
    okPos (symOne lex start t) :=
  ⟨rfl, rfl, ht⟩

theorem symTwo_okPos (rem : List Char) (lex : Lex) (start : Nat) (second : Char)
    (tTwo tOne : TokenType) (h2 : tTwo ≠ .Unknown) (h1 : tOne ≠ .Unknown) :
    okPos (symTwo rem lex start second tTwo tOne) := by
  unfold symTwo
  split_ifs
  · exact ⟨rfl, rfl, h2⟩
  · exact symOne_okPos lex start tOne h1

theorem parseSymbol_okPos (buf : List Char) (rem : List Char) (lex : Lex) (c : Char) :
    okPos (parseSymbol buf rem lex c) := by
  unfold parseSymbol
  split <;> first
    | exact symOne_okPos _ _ _ (fun h => nomatch h)
    | exact symTwo_okPos _ _ _ _ _ _ (fun h => nomatch h) (fun h => nomatch h)
    | trivial

theorem stringLoop_okPos (buf : List Char) (st : Nat) :
    ∀ (n : Nat) (rem : List Char) (lex : Lex), rem.length ≤ n →
      okPos (stringLoop buf st rem lex) := by
  intro n
  induction n with
  | zero =>
    intro rem lex hn
    have : rem = [] := List.length_eq_zero.mp (Nat.le_zero.mp hn)
    subst this
    trivial
  | succ n ih =>
    intro rem lex hn
    match rem with
    | [] => trivial
    | [c] =>
      simp only [stringLoop]
      split_ifs
      · trivial
      · exact ⟨rfl, rfl, fun h => nomatch h⟩
      · trivial
      · trivial
      · exact ih [] _ (by simp)
    | c :: e :: rest2 =>
      simp only [stringLoop]
      split_ifs
      · trivial
      · exact ⟨rfl, rfl, fun h => nomatch h⟩
      · exact ih rest2 _ (by simp at hn ⊢; omega)
      · trivial
      · trivial
      · trivial
      · exact ih (e :: rest2) _ (by simp at hn ⊢; omega)

theorem getNextToken_okPos (buf : List Char) (lex0 : Lex) :
    okPos (getNextToken buf lex0) := by
  unfold getNextToken
  rcases hsk : skipWhiteSpace (buf.drop lex0.current) lex0 with ⟨rem, lex⟩
  cases rem with
  | nil => exact ⟨rfl, rfl, fun h => nomatch h⟩
  | cons c rest =>
    dsimp only
    split_ifs
    · exact ⟨rfl, rfl, fun h => nomatch h⟩
    · exact ⟨rfl, rfl, checkKeyword_ne_unknown _⟩
    · exact parseNumber_okPos ..
    · exact stringLoop_okPos buf _ rest.length rest _ le_rfl
    · exact parseChar_okPos ..
    · exact parseSymbol_okPos ..

theorem stringLoop_unterm (buf : List Char) (st : Nat) :
    ∀ (n : Nat) (rem : List Char) (lex : Lex), rem.length ≤ n → untermOkStr rem = true →
      ∃ lexEnd, stringLoop buf st rem lex = .error (mkUnterminatedString buf st lexEnd) := by
  intro n
  induction n with
  | zero =>
    intro rem lex hn _
    have : rem = [] := List.length_eq_zero.mp (Nat.le_zero.mp hn)
    subst this
    exact ⟨lex, rfl⟩
  | succ n ih =>
    intro rem lex hn h
    match rem with
    | [] => exact ⟨lex, rfl⟩
    | [c] =>
      by_cases h1 : c = nul
      · exact ⟨lex, by simp [stringLoop, h1]⟩
      · by_cases h2 : c = '"'
        · rw [untermOkStr, if_neg h1, if_pos h2] at h
          exact absurd h (by decide)
        · by_cases h3 : c = '\\'
          · refine ⟨{ current := lex.current + 1, line := lex.line, column := lex.column + 1 },
              ?_⟩
            simp only [stringLoop]
            rw [if_neg h1, if_neg h2, if_pos h3]
          · by_cases h4 : c = '\n'
            · exact ⟨lex, by simp [stringLoop, h1, h2, h3, h4]⟩
            · obtain ⟨lexEnd, he⟩ := ih []
                { current := lex.current + 1, line := lex.line, column := lex.column + 1 }
                (by simp) rfl
              refine ⟨lexEnd, ?_⟩
              rw [stringLoop, if_neg h1, if_neg h2, if_neg h3, if_neg h4]
              exact he
    | c :: e :: rest2 =>
      by_cases h1 : c = nul
      · exact ⟨lex, by simp [stringLoop, h1]⟩
      · by_cases h2 : c = '"'
        · rw [untermOkStr, if_neg h1, if_pos h2] at h
          exact absurd h (by decide)
        · by_cases h3 : c = '\\'
          · by_cases h5 : e = 'n' ∨ e = 't' ∨ e = 'r' ∨ e = '\\' ∨ e = '"'
            · rw [untermOkStr, if_neg h1, if_neg h2, if_pos h3, if_pos h5] at h
              obtain ⟨lexEnd, he⟩ := ih rest2
                { current := lex.current + 2, line := lex.line, column := lex.column + 2 }
                (by simp at hn ⊢; omega) h
              refine ⟨lexEnd, ?_⟩
              rw [stringLoop, if_neg h1, if_neg h2, if_pos h3, if_pos h5]
              exact he
            · by_cases h6 : e = nul
              · refine ⟨{ current := lex.current + 1, line := lex.line,
                          column := lex.column + 1 }, ?_⟩
                rw [stringLoop, if_neg h1, if_neg h2, if_pos h3, if_neg h5, if_pos h6]
              · rw [untermOkStr, if_neg h1, if_neg h2, if_pos h3, if_neg h5, if_neg h6] at h
                exact absurd h (by decide)
          · by_cases h4 : c = '\n'
            · exact ⟨lex, by simp [stringLoop, h1, h2, h3, h4]⟩
            · rw [untermOkStr, if_neg h1, if_neg h2, if_neg h3, if_neg h4] at h
              obtain ⟨lexEnd, he⟩ := ih (e :: rest2)
                { current := lex.current + 1, line := lex.line, column := lex.column + 1 }
                (by simp at hn ⊢; omega) h
              refine ⟨lexEnd, ?_⟩
              rw [stringLoop, if_neg h1, if_neg h2, if_neg h3, if_neg h4]
              exact he

theorem getNextToken_eq (buf : List Char) (lex : Lex) (c : Char) (rest : List Char)
    (hrem : buf.drop lex.current = c :: rest)
    (hs : isSpaceC c = false) (hd : c ≠ '-') :
    getNextToken buf lex =
      if c = nul then .ok (makeToken .Eof (lex.current : Int) lex, lex)
      else if isAlphaC c ∨ c = '_' then
        .ok (parseIdentifier buf rest
          { current := lex.current + 1, line := lex.line, column := lex.column + 1 })
      else if isDigitC c then
        .ok (parseNumber rest
          { current := lex.current + 1, line := lex.line, column := lex.column + 1 })
      else if c = '"' then
        parseString buf rest
          { current := lex.current + 1, line := lex.line, column := lex.column + 1 }
      else if c = '\'' then
        parseChar buf rest
          { current := lex.current + 1, line := lex.line, column := lex.column + 1 }
      else
        parseSymbol buf rest
          { current := lex.current + 1, line := lex.line, column := lex.column + 1 } c := by
  unfold getNextToken
  rw [hrem, skipWhiteSpace_no_skip rest lex hs hd]

theorem esc_ne_nul {e : Char} (h : e = 'n' ∨ e = 't' ∨ e = 'r' ∨ e = '\\' ∨ e = '\'') :
    e ≠ nul := by
  rcases h with rfl | rfl | rfl | rfl | rfl <;> decide

theorem citem_head_ne_quote (it : CItem) (hok : citemOk it) (l : List Char) :
    headCh (citemChars it ++ l) ≠ '\'' := by
  cases it with
  | raw c => exact hok.1
  | esc e =>
    intro h
    have h2 : ('\\' : Char) = '\'' := h
    exact absurd h2 (by decide)

theorem parseChar_unterm (buf : List Char) (it : CItem) (T : List Char) (lex : Lex)
    (hok : citemOk it) (hT : headCh T ≠ '\'') :
    ∃ d, parseChar buf (citemChars it ++ T) lex = .error d ∧
      d.category = "LexicalError" ∧ d.message = "Unterminated char literal" := by
  cases it with
  | raw c =>
    obtain ⟨hq, hb, hz⟩ := hok
    have hmain : parseChar buf (citemChars (CItem.raw c) ++ T) lex =
        .error (reportError buf .LexicalError "Unterminated char literal"
          (makeToken .Unknown ((lex.current - 1 : Nat) : Int)
            { current := lex.current + 1, line := lex.line, column := lex.column + 1 })) := by
      simp only [citemChars, List.cons_append, List.nil_append]
      unfold parseChar
      rw [show headCh (c :: T) = c from rfl, if_neg hb]
      unfold charClose
      rw [show headCh (c :: T) = c from rfl, if_neg hz, List.tail_cons, if_neg hT]
    exact ⟨_, hmain, rfl, rfl⟩
  | esc e =>
    have hokd : e = 'n' ∨ e = 't' ∨ e = 'r' ∨ e = '\\' ∨ e = '\'' := hok
    have hmain : parseChar buf (citemChars (CItem.esc e) ++ T) lex =
        .error (reportError buf .LexicalError "Unterminated char literal"
          (makeToken .Unknown ((lex.current - 1 : Nat) : Int)
            { current := lex.current + 1 + 1, line := lex.line,
              column := lex.column + 1 + 1 })) := by
      simp only [citemChars, List.cons_append, List.nil_append]
      unfold parseChar
      rw [show headCh ('\\' :: e :: T) = '\\' from rfl, if_pos rfl, List.tail_cons,
          show headCh (e :: T) = e from rfl, if_pos hokd]
      unfold charClose
      rw [show headCh (e :: T) = e from rfl, if_neg (esc_ne_nul hokd), List.tail_cons,
          if_neg hT]
    exact ⟨_, hmain, rfl, rfl⟩

theorem identSteps_all (cs : List Char) (h : ∀ x ∈ cs, isIdentCont x = true) :
    identSteps cs = cs.length := by
  induction cs with
  | nil => rfl
  | cons c rest ih =>
    simp only [identSteps]
    rw [if_pos (h c (by simp)), ih fun x hx => h x (by simp [hx])]
    rfl

theorem checkKeywordGo_not_mem (s : List Char) :
    ∀ L : List (List Char × TokenType), s ∉ L.map Prod.fst →
      checkKeywordGo s L = .Identifier := by
  intro L
  induction L with
  | nil => intro _; rfl
  | cons p rest ih =>
    obtain ⟨k, t⟩ := p
    intro h
    simp only [List.map_cons, List.mem_cons, not_or] at h
    obtain ⟨h1, h2⟩ := h
    simp only [checkKeywordGo]
    rw [if_neg fun he => h1 he.symm]
    exact ih h2

theorem checkKeyword_not_mem (s : List Char) (h : s ∉ kwList.map Prod.fst) :
    checkKeyword s = .Identifier := checkKeywordGo_not_mem s kwList h

theorem getNextToken_ident (c : Char) (cs : List Char)
    (hc : isAlphaC c = true ∨ c = '_') (hcs : ∀ x ∈ cs, isIdentCont x = true) :
    getNextToken (c :: cs) initLex =
      .ok (Token.mk (checkKeyword (c :: cs)) 0 ((cs.length + 1 : Nat) : Int) 1
             (cs.length + 2),
           Lex.mk (cs.length + 1) 1 (cs.length + 2)) := by
  have hs : isSpaceC c = false := by
    rcases hc with hc | hc
    · exact isSpaceC_false_of_isAlphaC hc
    · subst hc; decide
  have hd : c ≠ '-' := by
    rcases hc with hc | hc
    · exact ne_dash_of_isAlphaC hc
    · subst hc; decide
  have hz : c ≠ nul := by
    rcases hc with hc | hc
    · exact ne_nul_of_isAlphaC hc
    · subst hc; decide
  rw [getNextToken_eq _ initLex c cs rfl hs hd]
  rw [if_neg hz, if_pos hc]
  simp only [parseIdentifier, initLex]
  rw [identSteps_all cs hcs]
  norm_num
  rw [List.take_of_length_le (by simp; omega)]
  simp only [makeToken, Except.ok.injEq, Prod.mk.injEq, Token.mk.injEq, Lex.mk.injEq]
  norm_num
  omega

theorem digitSteps_concat (ds r : List Char) (hds : ∀ x ∈ ds, isDigitC x = true)
    (hr : isDigitC (headCh r) = false) : digitSteps (ds ++ r) = ds.length := by
  induction ds with
  | nil =>
    cases r with
    | nil => rfl
    | cons c rest =>
      have hc : isDigitC c = false := hr
      simp [digitSteps, hc]
  | cons d2 rest ih =>
    simp only [List.cons_append, digitSteps]
    rw [if_pos (hds d2 (by simp)), show rest.append r = rest ++ r from rfl,
      ih fun x hx => hds x (by simp [hx])]
    rfl

theorem skipEol_length : ∀ (rem : List Char) (lex : Lex),
    (skipEol rem lex).1.length ≤ rem.length := by
  intro rem
  induction rem with
  | nil => intro lex; exact le_rfl
  | cons c rest ih =>
    intro lex
    simp only [skipEol]
    split
    · exact le_rfl
    · exact (ih _).trans (by simp)

theorem skipWhiteSpaceAux_succ (fuel : Nat) (rem : List Char) (lex : Lex) :
    skipWhiteSpaceAux (fuel + 1) rem lex =
      match skipStep rem lex with
      | none => (rem, lex)
      | some p => skipWhiteSpaceAux fuel p.1 p.2 := by
  cases rem with
  | nil => rfl
  | cons c rest =>
    simp only [skipWhiteSpaceAux, skipStep]
    by_cases hsp : isSpaceC c
    · rw [if_pos hsp, if_pos hsp]
    · rw [if_neg hsp, if_neg hsp]
      by_cases hcm : c = '-' ∧ headCh rest = '-'
      · rw [if_pos hcm, if_pos hcm]
      · rw [if_neg hcm, if_neg hcm]

theorem skipWhiteSpaceAux_congr : ∀ (n : Nat) (rem : List Char) (lex : Lex) (f1 f2 : Nat),
    rem.length ≤ n → rem.length < f1 → rem.length < f2 →
    skipWhiteSpaceAux f1 rem lex = skipWhiteSpaceAux f2 rem lex := by
  intro n
  induction n with
  | zero =>
    intro rem lex f1 f2 hn h1 h2
    have hr : rem = [] := List.length_eq_zero.mp (Nat.le_zero.mp hn)
    subst hr
    cases f1 with
    | zero => exact absurd h1 (by omega)
    | succ g1 =>
      cases f2 with
      | zero => exact absurd h2 (by omega)
      | succ g2 => simp [skipWhiteSpaceAux]
  | succ n ih =>
    intro rem lex f1 f2 hn h1 h2
    cases f1 with
    | zero => exact absurd h1 (by omega)
    | succ g1 =>
      cases f2 with
      | zero => exact absurd h2 (by omega)
      | succ g2 =>
        cases rem with
        | nil => simp [skipWhiteSpaceAux]
        | cons c rest =>
          simp only [skipWhiteSpaceAux]
          by_cases hsp : isSpaceC c
          · rw [if_pos hsp, if_pos hsp]
            exact ih rest _ g1 g2 (by simp at hn; omega) (by simp at h1; omega)
              (by simp at h2; omega)
          · rw [if_neg hsp, if_neg hsp]
            by_cases hcm : c = '-' ∧ headCh rest = '-'
            · rw [if_pos hcm, if_pos hcm]
              cases rest with
              | nil => exact absurd hcm.2 (by decide)
              | cons x xs =>
                have hlen := skipEol_length xs
                  { current := lex.current + 2, line := lex.line, column := lex.column + 2 }
                refine ih _ _ g1 g2 ?_ ?_ ?_
                · simp only [List.tail_cons]
                  simp at hn
                  omega
                · simp only [List.tail_cons]
                  simp at h1
                  omega
                · simp only [List.tail_cons]
                  simp at h2
                  omega
            · rw [if_neg hcm, if_neg hcm]

theorem skipWhiteSpace_stop1 {c : Char} (rest : List Char) (lex : Lex)
    (hs : isSpaceC c = false) (hcm : ¬(c = '-' ∧ headCh rest = '-')) :
    skipWhiteSpace (c :: rest) lex = (c :: rest, lex) := by
  simp [skipWhiteSpace, skipWhiteSpaceAux, hs, hcm]

theorem skipWhiteSpace_cons_space {c : Char} (rest : List Char) (lex : Lex)
    (hsp : isSpaceC c = true) :
    skipWhiteSpace (c :: rest) lex = skipWhiteSpace rest (spaceAdv c lex) := by
  show skipWhiteSpaceAux ((c :: rest).length + 1) (c :: rest) lex = _
  rw [show (c :: rest).length + 1 = (rest.length + 1) + 1 from by simp]
  rw [skipWhiteSpaceAux_succ]
  simp only [skipStep, if_pos hsp]
  rfl

theorem skipWhiteSpace_cons_comment (c x : Char) (xs : List Char) (lex : Lex)
    (hsp : isSpaceC c = false) (hcm : c = '-' ∧ headCh (x :: xs) = '-') :
    skipWhiteSpace (c :: x :: xs) lex =
      skipWhiteSpace
        (skipEol xs
          { current := lex.current + 2, line := lex.line, column := lex.column + 2 }).1
        (skipEol xs
          { current := lex.current + 2, line := lex.line, column := lex.column + 2 }).2 := by
  have hlen := skipEol_length xs
    { current := lex.current + 2, line := lex.line, column := lex.column + 2 }
  show skipWhiteSpaceAux ((c :: x :: xs).length + 1) (c :: x :: xs) lex = _
  rw [show (c :: x :: xs).length + 1 = (xs.length + 2) + 1 from by simp]
  rw [skipWhiteSpaceAux_succ]
  simp only [skipStep, hsp, Bool.false_eq_true, if_false, if_pos hcm, List.tail_cons]
  exact skipWhiteSpaceAux_congr
    (skipEol xs
      { current := lex.current + 2, line := lex.line, column := lex.column + 2 }).1.length
    _ _ _ _ le_rfl (by omega) (by omega)

theorem skipWhiteSpace_stops : ∀ (n : Nat) (rem : List Char) (lex : Lex), rem.length ≤ n →
    skipStep (skipWhiteSpace rem lex).1 (skipWhiteSpace rem lex).2 = none := by
  intro n
  induction n with
  | zero =>
    intro rem lex hn
    have hr : rem = [] := List.length_eq_zero.mp (Nat.le_zero.mp hn)
    subst hr
    rfl
  | succ n ih =>
    intro rem lex hn
    cases rem with
    | nil => rfl
    | cons c rest =>
      by_cases hsp : isSpaceC c = true
      · rw [skipWhiteSpace_cons_space rest lex hsp]
        exact ih rest _ (by simp at hn; omega)
      · have hsp2 : isSpaceC c = false := by revert hsp; cases isSpaceC c <;> simp
        by_cases hcm : c = '-' ∧ headCh rest = '-'
        · cases rest with
          | nil => exact absurd hcm.2 (by decide)
          | cons x xs =>
            have hlen := skipEol_length xs
              { current := lex.current + 2, line := lex.line, column := lex.column + 2 }
            rw [skipWhiteSpace_cons_comment c x xs lex hsp2 hcm]
            refine ih _ _ ?_
            simp at hn
            omega
        · rw [skipWhiteSpace_stop1 rest lex hsp2 hcm]
          simp [skipStep, hsp2, hcm]

/-! ## Claim theorems -/

/-- Claim C3, counterexample to the claim as stated: the input of a quote,
backslash, `q` and a newline contains a string literal whose opening quote is
not followed by an unescaped closing quote before a raw newline (the premise
of the claim, as `noCloseBeforeNl` of the content after the opening quote),
yet scanning it invokes the error path with message
"Invalid escape sequence in string", not "Unterminated string literal",
because the invalid escape is reported (and the process terminated) before
the newline is ever reached. -/
theorem unterminated_claim_invalid_escape_cex :
    noCloseBeforeNl ['\\', 'q', '\n'] = true ∧
    getNextToken ['"', '\\', 'q', '\n'] initLex =
      .error (Diag.mk "LexicalError" 1 2 "Invalid escape sequence in string") ∧
    "Invalid escape sequence in string" ≠ "Unterminated string literal" :=
  ⟨rfl, rfl, by decide⟩

/-- Claim C3, amended: if the string-literal content after the opening quote
reaches a raw newline or end-of-input before an unescaped closing quote AND
contains no invalid escape sequence before that point (`untermOkStr`), then
scanning the literal invokes the error path with category rendered
"LexicalError" and message "Unterminated string literal", and the column of
the diagnostic is the 1-based offset of the opening quote
(index `lex.current - 1`) within its source line (whose first byte
`reportError` finds by scanning back to the previous newline). -/
theorem parseString_unterminated_diag (buf rem : List Char) (lex : Lex)
    (h : untermOkStr rem = true) :
    ∃ d lexEnd, parseString buf rem lex = .error d ∧
      d = mkUnterminatedString buf (lex.current - 1) lexEnd ∧
      d.category = "LexicalError" ∧
      d.message = "Unterminated string literal" ∧
      d.column = ((lex.current - 1 : Nat) : Int) -
        (lineStart buf (lex.current - 1) : Int) + 1 := by
  obtain ⟨lexEnd, he⟩ := stringLoop_unterm buf (lex.current - 1) rem.length rem lex le_rfl h
  exact ⟨_, lexEnd, he, rfl, rfl, rfl, rfl⟩

/-- Witness for the amended Claim C3: the content `ab` with no closing quote
before end-of-input, scanned as a literal opened by a quote at index 0. -/
theorem parseString_unterminated_diag_witness :
    untermOkStr ['a', 'b'] = true ∧
    ∃ d lexEnd, parseString ['"', 'a', 'b'] ['a', 'b'] (Lex.mk 1 1 2) = .error d ∧
      d = mkUnterminatedString ['"', 'a', 'b'] 0 lexEnd ∧
      d.category = "LexicalError" ∧
      d.message = "Unterminated string literal" ∧
      d.column = ((0 : Nat) : Int) - (lineStart ['"', 'a', 'b'] 0 : Int) + 1 :=
  ⟨rfl, parseString_unterminated_diag ['"', 'a', 'b'] ['a', 'b'] (Lex.mk 1 1 2) rfl⟩

/-- Claim C4: a char literal containing two or more logical characters
(raw or escaped) between its quotes is rejected: the lexical error path is
invoked (with the "Unterminated char literal" message, category
`LexicalError`) and no `CharLiteral` token is returned. -/
theorem char_literal_multi_char_rejected (items : List CItem) (rest : List Char)
    (h2 : 2 ≤ items.length) (hok : ∀ it ∈ items, citemOk it) :
    ∃ d, getNextToken ('\'' :: ((items.map citemChars).flatten ++ '\'' :: rest)) initLex =
        .error d ∧
      d.category = "LexicalError" ∧ d.message = "Unterminated char literal" := by
  rcases items with _ | ⟨it1, rest1⟩
  · simp at h2
  rcases rest1 with _ | ⟨it2, more⟩
  · simp at h2
  have hok1 := hok it1 (by simp)
  have hok2 := hok it2 (by simp)
  have hB : ((it1 :: it2 :: more).map citemChars).flatten ++ '\'' :: rest =
      citemChars it1 ++ (citemChars it2 ++ ((more.map citemChars).flatten ++ '\'' :: rest)) := by
    simp [List.append_assoc]
  rw [hB]
  rw [getNextToken_eq _ initLex '\'' _ rfl (by decide) (by decide)]
  rw [if_neg (by decide : ¬(('\'' : Char) = nul)),
      if_neg (by decide : ¬(isAlphaC '\'' = true ∨ ('\'' : Char) = '_')),
      if_neg (by decide : ¬(isDigitC '\'' = true)),
      if_neg (by decide : ¬(('\'' : Char) = '"')),
      if_pos rfl]
  exact parseChar_unterm _ it1 _ _ hok1 (citem_head_ne_quote it2 hok2 _)

/-- Witness for Claim C4 at the concrete input of a char literal holding the
two raw characters `ab`. -/
theorem char_literal_multi_char_rejected_witness :
    2 ≤ ([CItem.raw 'a', CItem.raw 'b'] : List CItem).length ∧
    ∃ d, getNextToken
        ('\'' :: ((([CItem.raw 'a', CItem.raw 'b'] : List CItem).map citemChars).flatten ++
          '\'' :: [])) initLex = .error d ∧
      d.category = "LexicalError" ∧ d.message = "Unterminated char literal" :=
  ⟨by decide, char_literal_multi_char_rejected [CItem.raw 'a', CItem.raw 'b'] []
    (by decide) (by intro it hit; fin_cases hit <;> exact ⟨by decide, by decide, by decide⟩)⟩

/-- Claim C1 (the claim is right, the code has a slip): the char literal
`'a'` at the very start of the buffer produces a `CharLiteral` token whose
span starts at offset `-1` — one byte BEFORE the buffer — with length 4,
because `parseChar` builds the token from `start - 1` instead of `start`.
The span is therefore not a valid range within the producing buffer. -/
theorem charLiteral_start_of_buffer_span :
    getNextToken ['\'', 'a', '\''] initLex =
      .ok (Token.mk .CharLiteral (-1) 4 1 4, Lex.mk 3 1 4) ∧
    (Token.mk TokenType.CharLiteral (-1) 4 1 4).start < 0 :=
  ⟨rfl, by decide⟩

/-- Claim C2, counterexample: on input `let` the `Let` token carries
column 4 (the column just past the token), not column 1 (the column of the
token's first character), refuting the claim as stated. -/
theorem let_token_column_not_first :
    getNextToken ['l', 'e', 't'] initLex = .ok (Token.mk .Let 0 3 1 4, Lex.mk 3 1 4) ∧
    (Token.mk TokenType.Let 0 3 1 4).column ≠ 1 :=
  ⟨rfl, by decide⟩

/-- Claim C2, amended: the `line` and `column` fields of every token returned
by `getNextToken` equal the scanner's line and column immediately AFTER the
token's last consumed character (the position the scanner state is left at),
not the position of the token's first character. -/
theorem token_position_is_end_position (buf : List Char) (lex0 : Lex) (t : Token) (s : Lex)
    (h : getNextToken buf lex0 = .ok (t, s)) : t.line = s.line ∧ t.column = s.column := by
  have hp := getNextToken_okPos buf lex0
  rw [h] at hp
  exact ⟨hp.1, hp.2.1⟩

/-- Witness for the amended Claim C2 at the concrete input `let`. -/
theorem token_position_is_end_position_witness :
    (Token.mk TokenType.Let 0 3 1 4).line = (Lex.mk 3 1 4).line ∧
    (Token.mk TokenType.Let 0 3 1 4).column = (Lex.mk 3 1 4).column :=
  token_position_is_end_position ['l', 'e', 't'] initLex (Token.mk .Let 0 3 1 4)
    (Lex.mk 3 1 4) rfl

/-- Claim C6: each of the five two-character operators alone yields exactly
one token of the compound kind spanning both characters, and the first
character alone at end-of-input yields the single-character kind. -/
theorem two_char_operator_tokens :
    getNextToken ['<', '>'] initLex = .ok (Token.mk .NotEqual 0 2 1 3, Lex.mk 2 1 3) ∧
    getNextToken ['&', '&'] initLex = .ok (Token.mk .LogicalAnd 0 2 1 3, Lex.mk 2 1 3) ∧
    getNextToken ['|', '|'] initLex = .ok (Token.mk .LogicalOr 0 2 1 3, Lex.mk 2 1 3) ∧
    getNextToken [':', ':'] initLex = .ok (Token.mk .ConsOP 0 2 1 3, Lex.mk 2 1 3) ∧
    getNextToken ['-', '>'] initLex = .ok (Token.mk .Arrow 0 2 1 3, Lex.mk 2 1 3) ∧
    getNextToken ['<'] initLex = .ok (Token.mk .Less 0 1 1 2, Lex.mk 1 1 2) ∧
    getNextToken ['&'] initLex = .ok (Token.mk .Ampersand 0 1 1 2, Lex.mk 1 1 2) ∧
    getNextToken ['|'] initLex = .ok (Token.mk .Pipe 0 1 1 2, Lex.mk 1 1 2) ∧
    getNextToken [':'] initLex = .ok (Token.mk .Colon 0 1 1 2, Lex.mk 1 1 2) ∧
    getNextToken ['-'] initLex = .ok (Token.mk .Minus 0 1 1 2, Lex.mk 1 1 2) :=
  ⟨rfl, rfl, rfl, rfl, rfl, rfl, rfl, rfl, rfl, rfl⟩

/-- Claim C8: when the cursor (after whitespace/comment skipping, which is the
identity at the terminator) rests on the terminating NUL, `getNextToken`
returns an `Eof` token of length 0 at the current position with the state
unchanged, and chaining a second call onto the returned state gives the same
result (idempotence at end-of-input). -/
theorem eof_idempotent (buf : List Char) (lex : Lex)
    (h : headCh (buf.drop lex.current) = nul) :
    getNextToken buf lex =
      .ok (Token.mk .Eof (lex.current : Int) 0 lex.line lex.column, lex) ∧
    Except.bind (getNextToken buf lex) (fun p => getNextToken buf p.2) =
      getNextToken buf lex := by
  have h1 : getNextToken buf lex =
      .ok (Token.mk .Eof (lex.current : Int) 0 lex.line lex.column, lex) := by
    unfold getNextToken
    rw [skipWhiteSpace_eof lex h]
    rcases hrem : buf.drop lex.current with _ | ⟨c, rest⟩
    · simp [makeToken]
    · rw [hrem] at h
      have hc : c = nul := h
      subst hc
      simp [makeToken]
  refine ⟨h1, ?_⟩
  rw [h1]
  simpa [Except.bind] using h1

/-- Witness for Claim C8: the buffer `a` with the cursor already at the
terminator. -/
theorem eof_idempotent_witness :
    getNextToken ['a'] (Lex.mk 1 1 2) = .ok (Token.mk .Eof 1 0 1 2, Lex.mk 1 1 2) :=
  (eof_idempotent ['a'] (Lex.mk 1 1 2) rfl).1

/-- Claim C10: `getNextToken` never hands the caller a token of kind
`Unknown`: every `Unknown` token the scanner constructs is passed to
`reportError`, which terminates the process (modelled as `Except.error`), so
every normally returned token has some other kind. -/
theorem no_unknown_token_returned (buf : List Char) (lex0 : Lex) (t : Token) (s : Lex)
    (h : getNextToken buf lex0 = .ok (t, s)) : t.typ ≠ .Unknown := by
  have hp := getNextToken_okPos buf lex0
  rw [h] at hp
  exact hp.2.2

/-- Witness for Claim C10 at the concrete input `+`. -/
theorem no_unknown_token_returned_witness :
    (Token.mk TokenType.Plus 0 1 1 2).typ ≠ TokenType.Unknown :=
  no_unknown_token_returned ['+'] initLex (Token.mk .Plus 0 1 1 2) (Lex.mk 1 1 2) rfl

/-- Claim C5: each of the thirteen reserved spellings scans to exactly its
reserved-kind token (not `Identifier`) covering the whole input; and every
other identifier-shaped lexeme (letter or underscore first, then letters,
digits and underscores, not spelled exactly like a keyword) scans to the
generic `Identifier` kind.  Matching is exact and case-sensitive whole-lexeme
comparison (`checkKeyword`). -/
theorem keyword_classification :
    getNextToken ['C', 'h', 'a', 'r'] initLex =
      .ok (Token.mk .Char 0 4 1 5, Lex.mk 4 1 5) ∧
    getNextToken ['F', 'a', 'l', 's', 'e'] initLex =
      .ok (Token.mk .False 0 5 1 6, Lex.mk 5 1 6) ∧
    getNextToken ['F', 'l', 'o', 'a', 't'] initLex =
      .ok (Token.mk .Float 0 5 1 6, Lex.mk 5 1 6) ∧
    getNextToken ['I', 'n', 't'] initLex =
      .ok (Token.mk .Int 0 3 1 4, Lex.mk 3 1 4) ∧
    getNextToken ['l', 'e', 't'] initLex =
      .ok (Token.mk .Let 0 3 1 4, Lex.mk 3 1 4) ∧
    getNextToken ['L', 'i', 's', 't'] initLex =
      .ok (Token.mk .List 0 4 1 5, Lex.mk 4 1 5) ∧
    getNextToken ['m', 'a', 't', 'c', 'h'] initLex =
      .ok (Token.mk .Match 0 5 1 6, Lex.mk 5 1 6) ∧
    getNextToken ['T', 'r', 'u', 'e'] initLex =
      .ok (Token.mk .True 0 4 1 5, Lex.mk 4 1 5) ∧
    getNextToken ['t', 'y', 'p', 'e'] initLex =
      .ok (Token.mk .TypeKw 0 4 1 5, Lex.mk 4 1 5) ∧
    getNextToken ['U', 'n', 'i', 't'] initLex =
      .ok (Token.mk .Unit 0 4 1 5, Lex.mk 4 1 5) ∧
    getNextToken ['w', 'i', 't', 'h'] initLex =
      .ok (Token.mk .With 0 4 1 5, Lex.mk 4 1 5) ∧
    getNextToken ['S', 't', 'r', 'i', 'n', 'g'] initLex =
      .ok (Token.mk .String 0 6 1 7, Lex.mk 6 1 7) ∧
    getNextToken ['e', 'f', 'f', 'e', 'c', 't'] initLex =
      .ok (Token.mk .Effect 0 6 1 7, Lex.mk 6 1 7) ∧
    (∀ (c : Char) (cs : List Char), (isAlphaC c = true ∨ c = '_') →
      (∀ x ∈ cs, isIdentCont x = true) → (c :: cs) ∉ kwList.map Prod.fst →
      getNextToken (c :: cs) initLex =
        .ok (Token.mk .Identifier 0 ((cs.length + 1 : Nat) : Int) 1 (cs.length + 2),
             Lex.mk (cs.length + 1) 1 (cs.length + 2))) := by
  refine ⟨rfl, rfl, rfl, rfl, rfl, rfl, rfl, rfl, rfl, rfl, rfl, rfl, rfl, ?_⟩
  intro c cs h1 h2 h3
  rw [getNextToken_ident c cs h1 h2, checkKeyword_not_mem _ h3]

/-- Witness for Claim C5's general part at the concrete non-keyword
identifier `foo`. -/
theorem keyword_classification_witness :
    getNextToken ['f', 'o', 'o'] initLex =
      .ok (Token.mk .Identifier 0 3 1 4, Lex.mk 3 1 4) :=
  keyword_classification.2.2.2.2.2.2.2.2.2.2.2.2.2 'f' ['o', 'o']
    (by decide) (by decide) (by decide)

/-- Claim C7: a maximal digit run immediately followed by a dot scans,
together with the dot and the following maximal (possibly empty) digit run,
as one `FloatLiteral` token — in particular a trailing dot with no digits
after it is still part of the float lexeme; a maximal digit run not followed
by a dot scans as an `IntLiteral`. -/
theorem number_literal_classification :
    (∀ (d : Char) (ds es rest : List Char), isDigitC d = true →
      (∀ x ∈ ds, isDigitC x = true) → (∀ x ∈ es, isDigitC x = true) →
      isDigitC (headCh rest) = false →
      getNextToken (d :: (ds ++ '.' :: (es ++ rest))) initLex =
        .ok (Token.mk .FloatLiteral 0 ((ds.length + es.length + 2 : Nat) : Int) 1
               (ds.length + es.length + 3),
             Lex.mk (ds.length + es.length + 2) 1 (ds.length + es.length + 3))) ∧
    (∀ (d : Char) (ds rest : List Char), isDigitC d = true →
      (∀ x ∈ ds, isDigitC x = true) →
      isDigitC (headCh rest) = false → headCh rest ≠ '.' →
      getNextToken (d :: (ds ++ rest)) initLex =
        .ok (Token.mk .IntLiteral 0 ((ds.length + 1 : Nat) : Int) 1 (ds.length + 2),
             Lex.mk (ds.length + 1) 1 (ds.length + 2))) := by
  constructor
  · intro d ds es rest hd hds hes hr
    have hne : isDigitC (headCh ('.' :: (es ++ rest))) = false :=
      (by decide : isDigitC '.' = false)
    rw [getNextToken_eq _ initLex d _ rfl (isSpaceC_false_of_isDigitC hd)
        (ne_dash_of_isDigitC hd)]
    rw [if_neg (ne_nul_of_isDigitC hd),
        if_neg (not_or.mpr ⟨by simp [isAlphaC_false_of_isDigitC hd],
          ne_underscore_of_isDigitC hd⟩),
        if_pos hd]
    simp only [parseNumber, initLex]
    rw [digitSteps_concat ds _ hds hne, List.drop_left,
        show headCh ('.' :: (es ++ rest)) = '.' from rfl, if_pos rfl, List.tail_cons,
        digitSteps_concat es rest hes hr]
    simp only [makeToken, Except.ok.injEq, Prod.mk.injEq, Token.mk.injEq, Lex.mk.injEq]
    norm_num
    omega
  · intro d ds rest hd hds hr hdot
    rw [getNextToken_eq _ initLex d _ rfl (isSpaceC_false_of_isDigitC hd)
        (ne_dash_of_isDigitC hd)]
    rw [if_neg (ne_nul_of_isDigitC hd),
        if_neg (not_or.mpr ⟨by simp [isAlphaC_false_of_isDigitC hd],
          ne_underscore_of_isDigitC hd⟩),
        if_pos hd]
    simp only [parseNumber, initLex]
    rw [digitSteps_concat ds rest hds hr, List.drop_left, if_neg hdot]
    simp only [makeToken, Except.ok.injEq, Prod.mk.injEq, Token.mk.injEq, Lex.mk.injEq]
    norm_num
    omega

/-- Witness for Claim C7: the input `123.` is one FloatLiteral of length 4
(dot included, no digit after the dot), and the input `7` is an IntLiteral. -/
theorem number_literal_classification_witness :
    getNextToken ['1', '2', '3', '.'] initLex =
      .ok (Token.mk .FloatLiteral 0 4 1 5, Lex.mk 4 1 5) ∧
    getNextToken ['7'] initLex =
      .ok (Token.mk .IntLiteral 0 1 1 2, Lex.mk 1 1 2) :=
  ⟨number_literal_classification.1 '1' ['2', '3'] [] [] (by decide) (by decide)
      (by decide) (by decide),
   number_literal_classification.2 '7' [] [] (by decide) (by decide) (by decide)
      (by decide)⟩

/-- Claim C9: the whitespace-and-comment skipping step always terminates and
cannot error.  Concretely: (1) every iteration of the `for (;;)` loop of
`skipWhiteSpace` that continues (`skipStep` returns `some`) consumes at least
one character of the remaining input; (2) the skipper is exactly the
iteration of `skipStep`; (3) any fuel beyond the remaining length gives the
same result, i.e. the iteration has already stabilized within `rem.length`
steps and the structural bound is never exhausted; (4) the state the skipper
stops in is a genuine stopping state (no further whitespace or comment). -/
theorem skipWhiteSpace_terminates :
    (∀ (rem : List Char) (lex : Lex) (p : List Char × Lex),
        skipStep rem lex = some p → p.1.length < rem.length) ∧
    (∀ (fuel : Nat) (rem : List Char) (lex : Lex),
        skipWhiteSpaceAux (fuel + 1) rem lex =
          match skipStep rem lex with
          | none => (rem, lex)
          | some p => skipWhiteSpaceAux fuel p.1 p.2) ∧
    (∀ (rem : List Char) (lex : Lex) (fuel : Nat), rem.length < fuel →
        skipWhiteSpaceAux fuel rem lex = skipWhiteSpace rem lex) ∧
    (∀ (rem : List Char) (lex : Lex),
        skipStep (skipWhiteSpace rem lex).1 (skipWhiteSpace rem lex).2 = none) := by
  refine ⟨?_, skipWhiteSpaceAux_succ, ?_, ?_⟩
  · intro rem lex p h
    cases rem with
    | nil => exact absurd h (by simp [skipStep])
    | cons c rest =>
      simp only [skipStep] at h
      by_cases hsp : isSpaceC c
      · rw [if_pos hsp] at h
        obtain rfl := (Option.some.inj h).symm
        simp
      · rw [if_neg hsp] at h
        by_cases hcm : c = '-' ∧ headCh rest = '-'
        · rw [if_pos hcm] at h
          obtain rfl := (Option.some.inj h).symm
          cases rest with
          | nil => exact absurd hcm.2 (by decide)
          | cons x xs =>
            have hlen := skipEol_length xs
              { current := lex.current + 2, line := lex.line, column := lex.column + 2 }
            simp only [List.tail_cons, List.length_cons]
            omega
        · rw [if_neg hcm] at h
          exact absurd h (by simp)
  · intro rem lex fuel h
    exact skipWhiteSpaceAux_congr rem.length rem lex fuel (rem.length + 1) le_rfl h
      (by omega)
  · intro rem lex
    exact skipWhiteSpace_stops rem.length rem lex le_rfl

/-- Witness for Claim C9: one space consumes one character, and fuel 2 on a
one-character input already equals the skipper. -/
theorem skipWhiteSpace_terminates_witness :
    (([] : List Char), spaceAdv ' ' initLex).1.length < ([' '] : List Char).length ∧
    skipWhiteSpaceAux 2 [' '] initLex = skipWhiteSpace [' '] initLex :=
  ⟨skipWhiteSpace_terminates.1 [' '] initLex ([], spaceAdv ' ' initLex) rfl,
   skipWhiteSpace_terminates.2.2.1 [' '] initLex 2 (by decide)⟩

end Thale
